import Mathlib

/-!
Shallow embedding of the Bitcoin transaction codec from `src/lib.rs`.

Byte buffers are `List Nat` whose entries are byte values (`< 256`, the `u8`
range); machine integers (`u16`/`u32`/`u64`/`usize`) are `Nat` with explicit
range side conditions where the Rust types guarantee them. Fallible parsing
(`Result<(T, usize), BitcoinError>`) becomes `Except BitcoinError (T × Nat)`.
Each `to_bytes` / `from_bytes` Lean definition is a direct transcription of the
Rust method of the same name.
-/

namespace BtcCodec

/-- Little-endian byte decomposition of a value, 2 bytes: models
`u16::to_le_bytes`. Byte `i` is `v / 256 ^ i % 256`. -/
def leBytes2 (v : Nat) : List Nat :=
  [v % 256, v / 256 % 256]

/-- Little-endian byte decomposition, 4 bytes: models `u32::to_le_bytes`. -/
def leBytes4 (v : Nat) : List Nat :=
  [v % 256, v / 256 % 256, v / 65536 % 256, v / 16777216 % 256]

/-- Little-endian byte decomposition, 8 bytes: models `u64::to_le_bytes`. -/
def leBytes8 (v : Nat) : List Nat :=
  [v % 256, v / 256 % 256, v / 65536 % 256, v / 16777216 % 256,
   v / 4294967296 % 256, v / 1099511627776 % 256,
   v / 281474976710656 % 256, v / 72057594037927936 % 256]

/-- Reassemble a `u32` from the first four bytes of a buffer, little-endian:
models `u32::from_le_bytes([bs[0], bs[1], bs[2], bs[3]])` (callers always
check the buffer is long enough first, so the default `0` is never used). -/
def fromLE4 (bs : List Nat) : Nat :=
  bs.getD 0 0 + 256 * bs.getD 1 0 + 65536 * bs.getD 2 0 + 16777216 * bs.getD 3 0

/-- The error taxonomy of the codec (`enum BitcoinError`). -/
inductive BitcoinError where
  | InsufficientBytes : BitcoinError
  | InvalidFormat : BitcoinError
deriving DecidableEq, Repr

/-- A variable-length unsigned count (`struct CompactSize { value: u64 }`). -/
structure CompactSize where
  value : Nat
deriving DecidableEq, Repr

/-- The `u64` range invariant carried by the Rust `value` field. -/
abbrev CompactSize.Valid (cs : CompactSize) : Prop :=
  cs.value < 18446744073709551616

/-- Transcription of `CompactSize::to_bytes`. The `as u8` / `as u16` / `as u32`
casts in the Rust source are value-preserving inside their branches, so each
branch emits the value's low bytes directly. -/
def CompactSize.to_bytes (cs : CompactSize) : List Nat :=
  if cs.value ≤ 252 then [cs.value]
  else if cs.value ≤ 65535 then 253 :: leBytes2 cs.value
  else if cs.value ≤ 4294967295 then 254 :: leBytes4 cs.value
  else 255 :: leBytes8 cs.value

/-- Transcription of `CompactSize::from_bytes`: branch on the first byte, check
`bytes.len()` against `1 + payload_width`, then reassemble little-endian. The
final branch is the Rust `0xFF` arm (for `u8` input it is reached exactly at
byte value `255`). -/
def CompactSize.from_bytes (bytes : List Nat) :
    Except BitcoinError (CompactSize × Nat) :=
  if bytes = [] then .error .InsufficientBytes
  else
    if bytes.getD 0 0 ≤ 252 then .ok (⟨bytes.getD 0 0⟩, 1)
    else if bytes.getD 0 0 = 253 then
      if bytes.length < 3 then .error .InsufficientBytes
      else .ok (⟨bytes.getD 1 0 + 256 * bytes.getD 2 0⟩, 3)
    else if bytes.getD 0 0 = 254 then
      if bytes.length < 5 then .error .InsufficientBytes
      else .ok (⟨bytes.getD 1 0 + 256 * bytes.getD 2 0 + 65536 * bytes.getD 3 0
                  + 16777216 * bytes.getD 4 0⟩, 5)
    else
      if bytes.length < 9 then .error .InsufficientBytes
      else .ok (⟨bytes.getD 1 0 + 256 * bytes.getD 2 0 + 65536 * bytes.getD 3 0
                  + 16777216 * bytes.getD 4 0 + 4294967296 * bytes.getD 5 0
                  + 1099511627776 * bytes.getD 6 0
                  + 281474976710656 * bytes.getD 7 0
                  + 72057594037927936 * bytes.getD 8 0⟩, 9)

/-- Payload width selected by the first byte of a CompactSize encoding
(0 for a direct byte, 2 after `0xFD`, 4 after `0xFE`, 8 after `0xFF`). -/
def payloadWidth (b : Nat) : Nat :=
  if b ≤ 252 then 0
  else if b = 253 then 2
  else if b = 254 then 4
  else 8

/-- A 32-byte transaction id (`struct Txid(pub [u8; 32])`). -/
structure Txid where
  bytes : List Nat
deriving DecidableEq, Repr

/-- The `[u8; 32]` invariant: exactly 32 entries, each a byte. -/
abbrev Txid.Valid (t : Txid) : Prop :=
  t.bytes.length = 32 ∧ ∀ b ∈ t.bytes, b < 256

/-- A reference to a previous transaction output (`struct OutPoint`). -/
structure OutPoint where
  txid : Txid
  vout : Nat
deriving DecidableEq, Repr

/-- Rust type invariants of `OutPoint`: a well-formed txid and a `u32` vout. -/
abbrev OutPoint.Valid (op : OutPoint) : Prop :=
  op.txid.Valid ∧ op.vout < 4294967296

/-- Transcription of `OutPoint::to_bytes`: txid bytes then vout little-endian. -/
def OutPoint.to_bytes (op : OutPoint) : List Nat :=
  op.txid.bytes ++ leBytes4 op.vout

/-- Transcription of `OutPoint::from_bytes`: require 36 bytes, copy the first
32 as the txid, read bytes 32..36 as the vout. -/
def OutPoint.from_bytes (bytes : List Nat) :
    Except BitcoinError (OutPoint × Nat) :=
  if bytes.length < 36 then .error .InsufficientBytes
  else .ok (⟨⟨bytes.take 32⟩, fromLE4 (bytes.drop 32)⟩, 36)

/-- An opaque script payload (`struct Script { bytes: Vec<u8> }`). -/
structure Script where
  bytes : List Nat
deriving DecidableEq, Repr

/-- Rust type invariants of `Script`: byte entries, and a length representable
as `u64` (guaranteed by `usize` on the 64-bit targets the crate assumes). -/
abbrev Script.Valid (s : Script) : Prop :=
  s.bytes.length < 18446744073709551616 ∧ ∀ b ∈ s.bytes, b < 256

/-- Transcription of `Script::to_bytes`: CompactSize length prefix, then the
raw payload. -/
def Script.to_bytes (s : Script) : List Nat :=
  (CompactSize.mk s.bytes.length).to_bytes ++ s.bytes

/-- Transcription of `Script::from_bytes`: decode the length prefix
(propagating failure), require `length_bytes + script_length` bytes, then copy
the payload out. -/
def Script.from_bytes (bytes : List Nat) :
    Except BitcoinError (Script × Nat) :=
  match CompactSize.from_bytes bytes with
  | .error e => .error e
  | .ok (length, length_bytes) =>
    if bytes.length < length_bytes + length.value then .error .InsufficientBytes
    else .ok (⟨(bytes.drop length_bytes).take length.value⟩,
              length_bytes + length.value)

/-- Number of values of `usize` / `u64` on the 64-bit targets the crate
assumes (so `length.value as usize` is value-preserving). -/
def USIZE : Nat := 18446744073709551616

/-- Machine-accurate transcription of `Script::from_bytes`, keeping the
`usize` wrap-around of `length_bytes + script_length` (computed once for the
bound check and once for the slice): `some r` is a normal return, `none` is a
panic. In release builds the wrapped sum makes the bound check pass and the
slice `bytes[length_bytes..length_bytes + script_length]` has its end before
its start, which panics; in debug builds the overflowing addition itself
panics. The two build modes agree on every byte buffer: a wrapped sum is at
most 8 while the 0xFF length prefix guarantees at least 9 buffer bytes, so
the wrapped bound check never fires first. `Script.from_bytes` above is the
overflow-free functional reading; `script_usize_agrees` below shows the two
coincide whenever this one returns. -/
def Script.from_bytes_usize (bytes : List Nat) :
    Option (Except BitcoinError (Script × Nat)) :=
  match CompactSize.from_bytes bytes with
  | .error e => some (.error e)
  | .ok (length, length_bytes) =>
    if bytes.length < (length_bytes + length.value) % USIZE then
      some (.error .InsufficientBytes)
    else if length_bytes ≤ (length_bytes + length.value) % USIZE then
      some (.ok (⟨(bytes.drop length_bytes).take
          ((length_bytes + length.value) % USIZE - length_bytes)⟩,
        (length_bytes + length.value) % USIZE))
    else none

/-- One transaction input (`struct TransactionInput`). -/
structure TransactionInput where
  previous_output : OutPoint
  script_sig : Script
  sequence : Nat
deriving DecidableEq, Repr

/-- Rust type invariants of `TransactionInput`. -/
abbrev TransactionInput.Valid (ti : TransactionInput) : Prop :=
  ti.previous_output.Valid ∧ ti.script_sig.Valid ∧ ti.sequence < 4294967296

/-- Transcription of `TransactionInput::to_bytes`: OutPoint, Script, then the
sequence number little-endian. -/
def TransactionInput.to_bytes (ti : TransactionInput) : List Nat :=
  ti.previous_output.to_bytes ++ ti.script_sig.to_bytes ++ leBytes4 ti.sequence

/-- Transcription of `TransactionInput::from_bytes`: parse the OutPoint, parse
the Script from the remainder, then require 4 more bytes for the sequence. -/
def TransactionInput.from_bytes (bytes : List Nat) :
    Except BitcoinError (TransactionInput × Nat) :=
  match OutPoint.from_bytes bytes with
  | .error e => .error e
  | .ok (previous_output, c1) =>
    match Script.from_bytes (bytes.drop c1) with
    | .error e => .error e
    | .ok (script_sig, c2) =>
      if bytes.length < c1 + c2 + 4 then .error .InsufficientBytes
      else .ok (⟨previous_output, script_sig, fromLE4 (bytes.drop (c1 + c2))⟩,
                c1 + c2 + 4)

/-- A transaction (`struct BitcoinTransaction`). -/
structure BitcoinTransaction where
  version : Nat
  inputs : List TransactionInput
  lock_time : Nat
deriving DecidableEq, Repr

/-- Rust type invariants of `BitcoinTransaction`. -/
abbrev BitcoinTransaction.Valid (tx : BitcoinTransaction) : Prop :=
  tx.version < 4294967296 ∧ tx.inputs.length < 18446744073709551616 ∧
    (∀ i ∈ tx.inputs, i.Valid) ∧ tx.lock_time < 4294967296

/-- Transcription of `BitcoinTransaction::to_bytes`: version, CompactSize input
count, each input in order, lock time. -/
def BitcoinTransaction.to_bytes (tx : BitcoinTransaction) : List Nat :=
  leBytes4 tx.version
    ++ (CompactSize.mk tx.inputs.length).to_bytes
    ++ List.flatten (tx.inputs.map TransactionInput.to_bytes)
    ++ leBytes4 tx.lock_time

/-- The input-parsing loop of `BitcoinTransaction::from_bytes`
(`for _ in 0..input_count.value`), as a recursion on the remaining iteration
count: each step parses one input from the current remainder and advances by
its consumed length. Returns the inputs and total bytes consumed. -/
def parseInputs : Nat → List Nat → Except BitcoinError (List TransactionInput × Nat)
  | 0, _ => .ok ([], 0)
  | Nat.succ n, bytes =>
    match TransactionInput.from_bytes bytes with
    | .error e => .error e
    | .ok (input, c) =>
      match parseInputs n (bytes.drop c) with
      | .error e => .error e
      | .ok (rest, c2) => .ok (input :: rest, c + c2)

/-- Transcription of `BitcoinTransaction::from_bytes`: version (4 bytes),
CompactSize input count, `input_count.value` inputs, lock time (4 bytes). -/
def BitcoinTransaction.from_bytes (bytes : List Nat) :
    Except BitcoinError (BitcoinTransaction × Nat) :=
  if bytes.length < 4 then .error .InsufficientBytes
  else
    match CompactSize.from_bytes (bytes.drop 4) with
    | .error e => .error e
    | .ok (input_count, count_bytes) =>
      match parseInputs input_count.value (bytes.drop (4 + count_bytes)) with
      | .error e => .error e
      | .ok (inputs, ic) =>
        if bytes.length < 4 + count_bytes + ic + 4 then
          .error .InsufficientBytes
        else .ok (⟨fromLE4 bytes, inputs, fromLE4 (bytes.drop (4 + count_bytes + ic))⟩,
                  4 + count_bytes + ic + 4)

/-! ## Helper lemmas: little-endian reassembly and parse-append facts -/

/-- Reassembling the four little-endian bytes of a `u32` recovers the value,
also in the presence of trailing bytes. -/
theorem fromLE4_leBytes4 (v : Nat) (r : List Nat) (hv : v < 4294967296) :
    fromLE4 (leBytes4 v ++ r) = v := by
  simp [leBytes4, fromLE4]
  omega

/-- Parsing a buffer that starts with the canonical CompactSize encoding of a
`u64` value succeeds with that value, consuming exactly the encoding. -/
theorem cs_parse_append (v : Nat) (hv : v < 18446744073709551616)
    (s : List Nat) :
    CompactSize.from_bytes ((CompactSize.mk v).to_bytes ++ s) =
      .ok (⟨v⟩, (CompactSize.mk v).to_bytes.length) := by
  by_cases h1 : v ≤ 252
  · simp [CompactSize.to_bytes, CompactSize.from_bytes, h1]
  · by_cases h2 : v ≤ 65535
    · simp [CompactSize.to_bytes, CompactSize.from_bytes, leBytes2, h1, h2]
      split
      · exfalso
        omega
      · simp only [Except.ok.injEq, Prod.mk.injEq, CompactSize.mk.injEq, and_true, true_and]
        omega
    · by_cases h3 : v ≤ 4294967295
      · simp [CompactSize.to_bytes, CompactSize.from_bytes, leBytes4, h1, h2, h3]
        split
        · exfalso
          omega
        · simp only [Except.ok.injEq, Prod.mk.injEq, CompactSize.mk.injEq, and_true, true_and]
          omega
      · simp [CompactSize.to_bytes, CompactSize.from_bytes, leBytes8, h1, h2, h3]
        split
        · exfalso
          omega
        · simp only [Except.ok.injEq, Prod.mk.injEq, CompactSize.mk.injEq, and_true, true_and]
          omega

/-- Length of the canonical OutPoint encoding: 36 bytes once the txid is
well-formed. -/
theorem op_to_bytes_length (op : OutPoint) (h32 : op.txid.bytes.length = 32) :
    op.to_bytes.length = 36 := by
  simp [OutPoint.to_bytes, leBytes4, h32]

/-- Parsing a buffer that starts with the canonical OutPoint encoding succeeds
with that OutPoint, consuming exactly 36 bytes. -/
theorem op_parse_append (op : OutPoint) (h32 : op.txid.bytes.length = 32)
    (hv : op.vout < 4294967296) (s : List Nat) :
    OutPoint.from_bytes (op.to_bytes ++ s) = .ok (op, 36) := by
  have hb : op.to_bytes ++ s = op.txid.bytes ++ (leBytes4 op.vout ++ s) := by
    simp [OutPoint.to_bytes]
  rw [OutPoint.from_bytes, hb]
  rw [if_neg (by simp [leBytes4, h32]; omega)]
  rw [List.take_left' h32, List.drop_left' h32, fromLE4_leBytes4 _ _ hv]

/-- Length of the canonical Script encoding: the CompactSize length prefix
followed by the payload. -/
theorem script_to_bytes_length (sc : Script) :
    sc.to_bytes.length =
      (CompactSize.mk sc.bytes.length).to_bytes.length + sc.bytes.length := by
  simp [Script.to_bytes]

/-- Parsing a buffer that starts with the canonical Script encoding succeeds
with that Script, consuming exactly the encoding. -/
theorem script_parse_append (sc : Script)
    (h : sc.bytes.length < 18446744073709551616) (s : List Nat) :
    Script.from_bytes (sc.to_bytes ++ s) = .ok (sc, sc.to_bytes.length) := by
  have hb : sc.to_bytes ++ s =
      (CompactSize.mk sc.bytes.length).to_bytes ++ (sc.bytes ++ s) := by
    simp [Script.to_bytes]
  rw [Script.from_bytes, hb, cs_parse_append _ h]
  dsimp only
  rw [if_neg (by simp)]
  rw [List.drop_left, List.take_left]
  simp [script_to_bytes_length]

/-- Length of the canonical TransactionInput encoding. -/
theorem ti_to_bytes_length (ti : TransactionInput)
    (h32 : ti.previous_output.txid.bytes.length = 32) :
    ti.to_bytes.length = 36 + ti.script_sig.to_bytes.length + 4 := by
  simp [TransactionInput.to_bytes, op_to_bytes_length _ h32, leBytes4]
  omega

/-- Parsing a buffer that starts with the canonical TransactionInput encoding
succeeds with that input, consuming exactly the encoding. -/
theorem ti_parse_append (ti : TransactionInput) (hti : ti.Valid) (s : List Nat) :
    TransactionInput.from_bytes (ti.to_bytes ++ s) =
      .ok (ti, ti.to_bytes.length) := by
  obtain ⟨⟨⟨h32, _⟩, hvout⟩, ⟨hslen, _⟩, hseq⟩ := hti
  have hop36 : ti.previous_output.to_bytes.length = 36 := op_to_bytes_length _ h32
  have hb : ti.to_bytes ++ s =
      ti.previous_output.to_bytes
        ++ (ti.script_sig.to_bytes ++ (leBytes4 ti.sequence ++ s)) := by
    simp [TransactionInput.to_bytes]
  rw [TransactionInput.from_bytes, hb]
  rw [op_parse_append _ h32 hvout]
  dsimp only
  rw [List.drop_left' hop36]
  rw [script_parse_append _ hslen]
  dsimp only
  have hlen : (ti.previous_output.to_bytes
        ++ (ti.script_sig.to_bytes ++ (leBytes4 ti.sequence ++ s))).length =
      36 + ti.script_sig.to_bytes.length + 4 + s.length := by
    simp [hop36, leBytes4]
    omega
  rw [if_neg (by omega)]
  have hdrop : (ti.previous_output.to_bytes
        ++ (ti.script_sig.to_bytes ++ (leBytes4 ti.sequence ++ s))).drop
        (36 + ti.script_sig.to_bytes.length) = leBytes4 ti.sequence ++ s := by
    rw [← List.drop_drop, List.drop_left' hop36, List.drop_left]
  rw [hdrop, fromLE4_leBytes4 _ _ hseq, ti_to_bytes_length _ h32]

/-- Running the input-parsing loop for exactly the number of encoded inputs,
on a buffer that starts with their concatenated encodings, returns the inputs
and consumes exactly those bytes. -/
theorem parseInputs_append (l : List TransactionInput)
    (hl : ∀ i ∈ l, i.Valid) (s : List Nat) :
    parseInputs l.length (List.flatten (l.map TransactionInput.to_bytes) ++ s) =
      .ok (l, (List.flatten (l.map TransactionInput.to_bytes)).length) := by
  induction l generalizing s with
  | nil => simp [parseInputs]
  | cons i t ih =>
    have hi : i.Valid := hl i (List.mem_cons_self i t)
    have ht : ∀ j ∈ t, j.Valid := fun j hj => hl j (List.mem_cons_of_mem i hj)
    have hb : List.flatten ((i :: t).map TransactionInput.to_bytes) ++ s =
        i.to_bytes ++ (List.flatten (t.map TransactionInput.to_bytes) ++ s) := by
      simp
    rw [List.length_cons, parseInputs, hb, ti_parse_append i hi]
    dsimp only
    rw [List.drop_left, ih ht]
    simp

/-- Parsing a buffer that starts with the canonical transaction encoding
succeeds with that transaction, consuming exactly the encoding and leaving any
trailing bytes unread. -/
theorem tx_parse_append (tx : BitcoinTransaction) (htx : tx.Valid)
    (s : List Nat) :
    BitcoinTransaction.from_bytes (tx.to_bytes ++ s) =
      .ok (tx, tx.to_bytes.length) := by
  obtain ⟨hver, hcount, hins, hlock⟩ := htx
  have hb : tx.to_bytes ++ s =
      leBytes4 tx.version
        ++ ((CompactSize.mk tx.inputs.length).to_bytes
          ++ (List.flatten (tx.inputs.map TransactionInput.to_bytes)
            ++ (leBytes4 tx.lock_time ++ s))) := by
    simp [BitcoinTransaction.to_bytes]
  have h4 : (leBytes4 tx.version).length = 4 := by simp [leBytes4]
  rw [BitcoinTransaction.from_bytes, hb]
  rw [if_neg (by simp [leBytes4])]
  rw [List.drop_left' h4, cs_parse_append _ hcount]
  dsimp only
  have hdropc : (leBytes4 tx.version
        ++ ((CompactSize.mk tx.inputs.length).to_bytes
          ++ (List.flatten (tx.inputs.map TransactionInput.to_bytes)
            ++ (leBytes4 tx.lock_time ++ s)))).drop
        (4 + (CompactSize.mk tx.inputs.length).to_bytes.length) =
      List.flatten (tx.inputs.map TransactionInput.to_bytes)
        ++ (leBytes4 tx.lock_time ++ s) := by
    rw [← List.drop_drop, List.drop_left' h4, List.drop_left]
  rw [hdropc, parseInputs_append _ hins]
  dsimp only
  rw [if_neg (by simp [leBytes4]; omega)]
  have hdropl : (leBytes4 tx.version
        ++ ((CompactSize.mk tx.inputs.length).to_bytes
          ++ (List.flatten (tx.inputs.map TransactionInput.to_bytes)
            ++ (leBytes4 tx.lock_time ++ s)))).drop
        (4 + (CompactSize.mk tx.inputs.length).to_bytes.length
          + (List.flatten (tx.inputs.map TransactionInput.to_bytes)).length) =
      leBytes4 tx.lock_time ++ s := by
    rw [← List.drop_drop, ← List.drop_drop, List.drop_left' h4,
      List.drop_left, List.drop_left]
  rw [hdropl, fromLE4_leBytes4 _ _ hlock]
  have hfv : fromLE4 (leBytes4 tx.version
        ++ ((CompactSize.mk tx.inputs.length).to_bytes
          ++ (List.flatten (tx.inputs.map TransactionInput.to_bytes)
            ++ (leBytes4 tx.lock_time ++ s)))) = tx.version :=
    fromLE4_leBytes4 _ _ hver
  rw [hfv]
  simp [BitcoinTransaction.to_bytes, leBytes4]
  omega

/-! ## Helper lemmas: error classification and consumed-byte bounds -/

/-- Indexing into a dropped buffer reads the original at the shifted index. -/
theorem getD_drop (l : List Nat) (m k : Nat) :
    (l.drop m).getD k 0 = l.getD (m + k) 0 := by
  simp [List.getD_eq_getElem?_getD, List.getElem?_drop]

/-- CompactSize parsing only ever fails with InsufficientBytes. -/
theorem cs_error_insufficient (bs : List Nat) (e : BitcoinError)
    (h : CompactSize.from_bytes bs = .error e) : e = .InsufficientBytes := by
  rw [CompactSize.from_bytes] at h
  split_ifs at h
  all_goals simp_all

/-- OutPoint parsing only ever fails with InsufficientBytes. -/
theorem op_error_insufficient (bs : List Nat) (e : BitcoinError)
    (h : OutPoint.from_bytes bs = .error e) : e = .InsufficientBytes := by
  rw [OutPoint.from_bytes] at h
  split at h
  all_goals simp_all

/-- Script parsing only ever fails with InsufficientBytes. -/
theorem script_error_insufficient (bs : List Nat) (e : BitcoinError)
    (h : Script.from_bytes bs = .error e) : e = .InsufficientBytes := by
  rw [Script.from_bytes] at h
  split at h
  · rename_i e' he
    exact cs_error_insufficient bs e' he ▸ (by simp_all)
  · split at h
    all_goals simp_all

/-- TransactionInput parsing only ever fails with InsufficientBytes. -/
theorem ti_error_insufficient (bs : List Nat) (e : BitcoinError)
    (h : TransactionInput.from_bytes bs = .error e) : e = .InsufficientBytes := by
  rw [TransactionInput.from_bytes] at h
  split at h
  · rename_i e' he
    have := op_error_insufficient bs e' he
    simp_all
  · split at h
    · rename_i previous c1 e' he
      have := script_error_insufficient _ e' he
      simp_all
    · split at h
      all_goals simp_all

/-- The input-parsing loop only ever fails with InsufficientBytes. -/
theorem parseInputs_error_insufficient (n : Nat) (bs : List Nat)
    (e : BitcoinError) (h : parseInputs n bs = .error e) :
    e = .InsufficientBytes := by
  induction n generalizing bs e with
  | zero => simp [parseInputs] at h
  | succ m ih =>
    rw [parseInputs] at h
    split at h
    · rename_i e' he
      have := ti_error_insufficient bs e' he
      simp_all
    · rename_i input c hin
      split at h
      · rename_i e' he
        have := ih _ e' he
        simp_all
      · simp_all

/-- Transaction parsing only ever fails with InsufficientBytes. -/
theorem tx_error_insufficient (bs : List Nat) (e : BitcoinError)
    (h : BitcoinTransaction.from_bytes bs = .error e) :
    e = .InsufficientBytes := by
  rw [BitcoinTransaction.from_bytes] at h
  split at h
  · simp_all
  · split at h
    · rename_i e' he
      have := cs_error_insufficient _ e' he
      simp_all
    · split at h
      · rename_i e' he
        have := parseInputs_error_insufficient _ _ e' he
        simp_all
      · split at h
        all_goals simp_all

/-- A successful CompactSize parse consumes between 1 byte and the whole
buffer. -/
theorem cs_ok_bounds (bs : List Nat) (v : CompactSize) (c : Nat)
    (h : CompactSize.from_bytes bs = .ok (v, c)) : 1 ≤ c ∧ c ≤ bs.length := by
  by_cases hbs : bs = []
  · subst hbs
    simp [CompactSize.from_bytes] at h
  · have hpos : 0 < bs.length := List.length_pos.mpr hbs
    rw [CompactSize.from_bytes] at h
    split_ifs at h
    all_goals simp_all
    all_goals omega

/-- A successful OutPoint parse consumes exactly 36 bytes, within the buffer. -/
theorem op_ok_bounds (bs : List Nat) (v : OutPoint) (c : Nat)
    (h : OutPoint.from_bytes bs = .ok (v, c)) : c = 36 ∧ 36 ≤ bs.length := by
  rw [OutPoint.from_bytes] at h
  split at h
  all_goals simp_all
  try omega

/-- A successful Script parse consumes between 1 byte and the whole buffer. -/
theorem script_ok_bounds (bs : List Nat) (v : Script) (c : Nat)
    (h : Script.from_bytes bs = .ok (v, c)) : 1 ≤ c ∧ c ≤ bs.length := by
  rw [Script.from_bytes] at h
  split at h
  · simp_all
  · rename_i l lb hcs
    split at h
    · simp_all
    · rename_i hlen
      have := cs_ok_bounds bs l lb hcs
      simp only [Except.ok.injEq, Prod.mk.injEq] at h
      omega

/-- A successful TransactionInput parse consumes between 41 bytes and the
whole buffer. -/
theorem ti_ok_bounds (bs : List Nat) (v : TransactionInput) (c : Nat)
    (h : TransactionInput.from_bytes bs = .ok (v, c)) :
    41 ≤ c ∧ c ≤ bs.length := by
  rw [TransactionInput.from_bytes] at h
  split at h
  · simp_all
  · rename_i previous c1 hop
    split at h
    · simp_all
    · rename_i sc c2 hsc
      split at h
      · simp_all
      · rename_i hlen
        have h1 := op_ok_bounds bs previous c1 hop
        have h2 := script_ok_bounds _ sc c2 hsc
        simp only [Except.ok.injEq, Prod.mk.injEq] at h
        omega

/-- A successful run of the input loop returns exactly `n` inputs and consumes
between `41 * n` bytes and the whole buffer. -/
theorem parseInputs_ok_bounds (n : Nat) (bs : List Nat)
    (l : List TransactionInput) (c : Nat)
    (h : parseInputs n bs = .ok (l, c)) :
    l.length = n ∧ 41 * n ≤ c ∧ c ≤ bs.length := by
  induction n generalizing bs l c with
  | zero =>
    rw [parseInputs] at h
    simp only [Except.ok.injEq, Prod.mk.injEq] at h
    obtain ⟨hl, hc⟩ := h
    subst hl
    subst hc
    simp
  | succ m ih =>
    rw [parseInputs] at h
    split at h
    · simp_all
    · rename_i input c1 hin
      split at h
      · simp_all
      · rename_i rest c2 hrest
        have h1 := ti_ok_bounds bs input c1 hin
        have h2 := ih _ _ _ hrest
        simp only [Except.ok.injEq, Prod.mk.injEq] at h
        obtain ⟨hl, hc⟩ := h
        subst hl
        subst hc
        simp only [List.length_cons, List.length_drop] at h2 ⊢
        omega

/-- A successful transaction parse consumes at least 9 bytes plus 41 per
input, and at most the whole buffer. -/
theorem tx_ok_bounds (bs : List Nat) (t : BitcoinTransaction) (c : Nat)
    (h : BitcoinTransaction.from_bytes bs = .ok (t, c)) :
    9 + 41 * t.inputs.length ≤ c ∧ c ≤ bs.length := by
  rw [BitcoinTransaction.from_bytes] at h
  split at h
  · simp_all
  · split at h
    · simp_all
    · rename_i count cb hcs
      split at h
      · simp_all
      · rename_i ins ic hins
        split at h
        · simp_all
        · rename_i hlen
          have h1 := cs_ok_bounds _ count cb hcs
          have h2 := parseInputs_ok_bounds _ _ ins ic hins
          simp only [Except.ok.injEq, Prod.mk.injEq] at h
          obtain ⟨ht, hc⟩ := h
          subst hc
          have hil : t.inputs = ins := by rw [← ht]
          simp only [List.length_drop] at h2
          rw [hil]
          omega

/-! ## Claim theorems -/

/-- C1: for every value of each codec type (CompactSize, OutPoint, Script,
TransactionInput, BitcoinTransaction), `from_bytes (to_bytes x)` succeeds and
returns exactly `(x, (to_bytes x).length)`. -/
theorem claim_C1_roundtrip :
    (∀ cs : CompactSize, cs.Valid →
      CompactSize.from_bytes cs.to_bytes = .ok (cs, cs.to_bytes.length)) ∧
    (∀ op : OutPoint, op.Valid →
      OutPoint.from_bytes op.to_bytes = .ok (op, op.to_bytes.length)) ∧
    (∀ sc : Script, sc.Valid →
      Script.from_bytes sc.to_bytes = .ok (sc, sc.to_bytes.length)) ∧
    (∀ ti : TransactionInput, ti.Valid →
      TransactionInput.from_bytes ti.to_bytes = .ok (ti, ti.to_bytes.length)) ∧
    (∀ tx : BitcoinTransaction, tx.Valid →
      BitcoinTransaction.from_bytes tx.to_bytes = .ok (tx, tx.to_bytes.length)) := by
  refine ⟨fun cs h => ?_, fun op h => ?_, fun sc h => ?_, fun ti h => ?_,
    fun tx h => ?_⟩
  · have := cs_parse_append cs.value h []
    simpa using this
  · have := op_parse_append op h.1.1 h.2 []
    rw [List.append_nil] at this
    rw [this, op_to_bytes_length op h.1.1]
  · have := script_parse_append sc h.1 []
    simpa using this
  · have := ti_parse_append ti h []
    simpa using this
  · have := tx_parse_append tx h []
    simpa using this

/-- C1 witness: concrete round trips through every codec type. -/
theorem claim_C1_roundtrip_witness :
    CompactSize.from_bytes (CompactSize.to_bytes ⟨300⟩) =
      .ok (⟨300⟩, (CompactSize.to_bytes ⟨300⟩).length) ∧
    OutPoint.from_bytes (OutPoint.to_bytes ⟨⟨List.replicate 32 7⟩, 65537⟩) =
      .ok (⟨⟨List.replicate 32 7⟩, 65537⟩,
        (OutPoint.to_bytes ⟨⟨List.replicate 32 7⟩, 65537⟩).length) ∧
    Script.from_bytes (Script.to_bytes ⟨[1, 2, 3]⟩) =
      .ok (⟨[1, 2, 3]⟩, (Script.to_bytes ⟨[1, 2, 3]⟩).length) ∧
    TransactionInput.from_bytes
        (TransactionInput.to_bytes ⟨⟨⟨List.replicate 32 9⟩, 0⟩, ⟨[5]⟩, 4294967295⟩) =
      .ok (⟨⟨⟨List.replicate 32 9⟩, 0⟩, ⟨[5]⟩, 4294967295⟩,
        (TransactionInput.to_bytes ⟨⟨⟨List.replicate 32 9⟩, 0⟩, ⟨[5]⟩, 4294967295⟩).length) ∧
    BitcoinTransaction.from_bytes
        (BitcoinTransaction.to_bytes ⟨1, [⟨⟨⟨List.replicate 32 9⟩, 0⟩, ⟨[5]⟩, 0⟩], 2⟩) =
      .ok (⟨1, [⟨⟨⟨List.replicate 32 9⟩, 0⟩, ⟨[5]⟩, 0⟩], 2⟩,
        (BitcoinTransaction.to_bytes ⟨1, [⟨⟨⟨List.replicate 32 9⟩, 0⟩, ⟨[5]⟩, 0⟩], 2⟩).length) :=
  ⟨claim_C1_roundtrip.1 ⟨300⟩ (by decide),
   claim_C1_roundtrip.2.1 ⟨⟨List.replicate 32 7⟩, 65537⟩ (by decide),
   claim_C1_roundtrip.2.2.1 ⟨[1, 2, 3]⟩ (by decide),
   claim_C1_roundtrip.2.2.2.1 ⟨⟨⟨List.replicate 32 9⟩, 0⟩, ⟨[5]⟩, 4294967295⟩ (by decide),
   claim_C1_roundtrip.2.2.2.2 ⟨1, [⟨⟨⟨List.replicate 32 9⟩, 0⟩, ⟨[5]⟩, 0⟩], 2⟩ (by decide)⟩

/-- C2: CompactSize::to_bytes chooses the branch by magnitude: values up to
252 encode as that single byte; 253..65535 as 0xFD plus a 2-byte little-endian
payload; 65536..4294967295 as 0xFE plus 4 bytes; 4294967296 and above as 0xFF
plus 8 bytes. -/
theorem claim_C2_to_bytes_branches (v : Nat) :
    (v ≤ 252 →
      CompactSize.to_bytes ⟨v⟩ = [v] ∧ (CompactSize.to_bytes ⟨v⟩).length = 1) ∧
    (253 ≤ v → v ≤ 65535 →
      CompactSize.to_bytes ⟨v⟩ = 253 :: leBytes2 v ∧
      (CompactSize.to_bytes ⟨v⟩).length = 3) ∧
    (65536 ≤ v → v ≤ 4294967295 →
      CompactSize.to_bytes ⟨v⟩ = 254 :: leBytes4 v ∧
      (CompactSize.to_bytes ⟨v⟩).length = 5) ∧
    (4294967296 ≤ v →
      CompactSize.to_bytes ⟨v⟩ = 255 :: leBytes8 v ∧
      (CompactSize.to_bytes ⟨v⟩).length = 9) := by
  refine ⟨fun h1 => ?_, fun h1 h2 => ?_, fun h1 h2 => ?_, fun h1 => ?_⟩
  · simp [CompactSize.to_bytes, h1]
  · have hn : ¬ v ≤ 252 := by omega
    simp [CompactSize.to_bytes, hn, h2, leBytes2]
  · have hn1 : ¬ v ≤ 252 := by omega
    have hn2 : ¬ v ≤ 65535 := by omega
    simp [CompactSize.to_bytes, hn1, hn2, h2, leBytes4]
  · have hn1 : ¬ v ≤ 252 := by omega
    have hn2 : ¬ v ≤ 65535 := by omega
    have hn3 : ¬ v ≤ 4294967295 := by omega
    simp [CompactSize.to_bytes, hn1, hn2, hn3, leBytes8]

/-- C2 witness: the boundary values from the spec land in the stated
branches. -/
theorem claim_C2_to_bytes_branches_witness :
    CompactSize.to_bytes ⟨252⟩ = [252] ∧
    CompactSize.to_bytes ⟨253⟩ = 253 :: leBytes2 253 ∧
    CompactSize.to_bytes ⟨65535⟩ = 253 :: leBytes2 65535 ∧
    CompactSize.to_bytes ⟨65536⟩ = 254 :: leBytes4 65536 ∧
    CompactSize.to_bytes ⟨4294967295⟩ = 254 :: leBytes4 4294967295 ∧
    CompactSize.to_bytes ⟨4294967296⟩ = 255 :: leBytes8 4294967296 :=
  ⟨((claim_C2_to_bytes_branches 252).1 (by decide)).1,
   ((claim_C2_to_bytes_branches 253).2.1 (by decide) (by decide)).1,
   ((claim_C2_to_bytes_branches 65535).2.1 (by decide) (by decide)).1,
   ((claim_C2_to_bytes_branches 65536).2.2.1 (by decide) (by decide)).1,
   ((claim_C2_to_bytes_branches 4294967295).2.2.1 (by decide) (by decide)).1,
   ((claim_C2_to_bytes_branches 4294967296).2.2.2 (by decide)).1⟩

/-- C3: CompactSize::from_bytes selects its branch from the first byte and
fails with InsufficientBytes exactly when fewer than `1 + payload_width` bytes
are present; the 0xFF branch consumes 9 bytes and accepts the decoded value no
matter how small, with no canonical-length re-validation. -/
theorem claim_C3_from_bytes_branch (bs : List Nat) (v : Nat)
    (hv : v < 18446744073709551616) :
    (CompactSize.from_bytes bs = .error .InsufficientBytes ↔
      bs.length < 1 + payloadWidth (bs.getD 0 0)) ∧
    CompactSize.from_bytes (255 :: leBytes8 v) = .ok (⟨v⟩, 9) := by
  constructor
  · by_cases hbs : bs = []
    · subst hbs
      simp [CompactSize.from_bytes, payloadWidth]
    · have hpos : 0 < bs.length := List.length_pos.mpr hbs
      rw [CompactSize.from_bytes, payloadWidth]
      split_ifs
      all_goals simp_all
  · simp [CompactSize.from_bytes, leBytes8]
    omega

/-- C3 witness: a truncated 0xFD buffer fails as the length condition states,
and a non-canonical 9-byte 0xFF encoding of the small value 5 is accepted. -/
theorem claim_C3_from_bytes_branch_witness :
    (CompactSize.from_bytes [253, 7] = .error .InsufficientBytes ↔
      ([253, 7] : List Nat).length < 1 + payloadWidth (([253, 7] : List Nat).getD 0 0)) ∧
    CompactSize.from_bytes (255 :: leBytes8 5) = .ok (⟨5⟩, 9) :=
  claim_C3_from_bytes_branch [253, 7] 5 (by decide)

/-- Functional specification of `Script.from_bytes`: the result is always Ok
or InsufficientBytes; given the decoded length prefix, it succeeds with
exactly the declared number of payload bytes copied out when
`prefix_length + declared_length` bytes are available, and fails with
InsufficientBytes when fewer are. -/
theorem script_from_bytes_spec (bs : List Nat) :
    ((∃ sc c, Script.from_bytes bs = .ok (sc, c)) ∨
      Script.from_bytes bs = .error .InsufficientBytes) ∧
    (∀ l c, CompactSize.from_bytes bs = .ok (l, c) →
      (c + l.value ≤ bs.length →
        Script.from_bytes bs = .ok (⟨(bs.drop c).take l.value⟩, c + l.value) ∧
        ((bs.drop c).take l.value).length = l.value) ∧
      (bs.length < c + l.value →
        Script.from_bytes bs = .error .InsufficientBytes)) := by
  constructor
  · cases hcs : Script.from_bytes bs with
    | ok r => exact Or.inl ⟨r.1, r.2, rfl⟩
    | error e =>
      have he := script_error_insufficient bs e hcs
      subst he
      exact Or.inr rfl
  · intro l c hcs
    constructor
    · intro hle
      rw [Script.from_bytes, hcs]
      dsimp only
      rw [if_neg (by omega)]
      refine ⟨rfl, ?_⟩
      simp only [List.length_take, List.length_drop]
      omega
    · intro hlt
      rw [Script.from_bytes, hcs]
      dsimp only
      rw [if_pos hlt]

/-- Check of `script_from_bytes_spec` on concrete buffers: declared length 2
with both payload bytes present parses to those bytes; the same prefix with
only one payload byte fails. -/
theorem script_from_bytes_spec_check :
    Script.from_bytes [2, 10, 20] =
      .ok (⟨(([2, 10, 20] : List Nat).drop 1).take 2⟩, 1 + 2) ∧
    Script.from_bytes [2, 10] = .error .InsufficientBytes :=
  ⟨(((script_from_bytes_spec [2, 10, 20]).2 ⟨2⟩ 1 (by rfl)).1 (by decide)).1,
   ((script_from_bytes_spec [2, 10]).2 ⟨2⟩ 1 (by rfl)).2 (by decide)⟩

/-- C5: OutPoint::from_bytes fails with InsufficientBytes exactly when the
buffer has fewer than 36 bytes; any buffer of at least 36 bytes succeeds
regardless of content, and every success consumes exactly 36 bytes. -/
theorem claim_C5_outpoint (bs : List Nat) :
    (OutPoint.from_bytes bs = .error .InsufficientBytes ↔ bs.length < 36) ∧
    (36 ≤ bs.length → ∃ op : OutPoint, OutPoint.from_bytes bs = .ok (op, 36)) ∧
    (∀ op c, OutPoint.from_bytes bs = .ok (op, c) → c = 36) := by
  refine ⟨?_, fun h => ?_, fun op c h => (op_ok_bounds bs op c h).1⟩
  · rw [OutPoint.from_bytes]
    split_ifs with h
    · simp [h]
    · simp [h]
  · rw [OutPoint.from_bytes, if_neg (by omega)]
    exact ⟨_, rfl⟩

/-- C5 witness: a 36-byte buffer of zeros parses with consumed 36; a 35-byte
buffer sits exactly at the failure boundary of the iff. -/
theorem claim_C5_outpoint_witness :
    (∃ op : OutPoint, OutPoint.from_bytes (List.replicate 36 0) = .ok (op, 36)) ∧
    (OutPoint.from_bytes (List.replicate 35 0) = .error .InsufficientBytes ↔
      (List.replicate 35 (0 : Nat)).length < 36) ∧
    (36 : Nat) = 36 :=
  ⟨(claim_C5_outpoint (List.replicate 36 0)).2.1 (by decide),
   (claim_C5_outpoint (List.replicate 35 0)).1,
   (claim_C5_outpoint (List.replicate 36 0)).2.2 ⟨⟨List.replicate 32 0⟩, 0⟩ 36
     (by rfl)⟩

/-- C6: parsing `to_bytes t ++ s` succeeds with `t`, reports consumed equal to
`(to_bytes t).length` — strictly less than the buffer length when `s` is
non-empty — and the trailing bytes are exactly the unconsumed remainder. -/
theorem claim_C6_trailing (tx : BitcoinTransaction) (s : List Nat)
    (htx : tx.Valid) :
    BitcoinTransaction.from_bytes (tx.to_bytes ++ s) =
      .ok (tx, tx.to_bytes.length) ∧
    (s ≠ [] → tx.to_bytes.length < (tx.to_bytes ++ s).length) ∧
    (tx.to_bytes ++ s).drop tx.to_bytes.length = s := by
  refine ⟨tx_parse_append tx htx s, fun hs => ?_, List.drop_left _ _⟩
  simp only [List.length_append, Nat.lt_add_right_iff_pos]
  exact List.length_pos.mpr hs

/-- C6 witness: a concrete one-input transaction with three trailing bytes. -/
theorem claim_C6_trailing_witness :
    BitcoinTransaction.from_bytes
        (BitcoinTransaction.to_bytes
            ⟨1, [⟨⟨⟨List.replicate 32 7⟩, 1⟩, ⟨[1, 2]⟩, 4294967295⟩], 0⟩
          ++ [9, 9, 9]) =
      .ok (⟨1, [⟨⟨⟨List.replicate 32 7⟩, 1⟩, ⟨[1, 2]⟩, 4294967295⟩], 0⟩,
        (BitcoinTransaction.to_bytes
          ⟨1, [⟨⟨⟨List.replicate 32 7⟩, 1⟩, ⟨[1, 2]⟩, 4294967295⟩], 0⟩).length) ∧
    (([9, 9, 9] : List Nat) ≠ [] →
      (BitcoinTransaction.to_bytes
          ⟨1, [⟨⟨⟨List.replicate 32 7⟩, 1⟩, ⟨[1, 2]⟩, 4294967295⟩], 0⟩).length <
        ((BitcoinTransaction.to_bytes
            ⟨1, [⟨⟨⟨List.replicate 32 7⟩, 1⟩, ⟨[1, 2]⟩, 4294967295⟩], 0⟩)
          ++ [9, 9, 9]).length) ∧
    ((BitcoinTransaction.to_bytes
        ⟨1, [⟨⟨⟨List.replicate 32 7⟩, 1⟩, ⟨[1, 2]⟩, 4294967295⟩], 0⟩)
      ++ [9, 9, 9]).drop
        (BitcoinTransaction.to_bytes
          ⟨1, [⟨⟨⟨List.replicate 32 7⟩, 1⟩, ⟨[1, 2]⟩, 4294967295⟩], 0⟩).length =
      [9, 9, 9] :=
  claim_C6_trailing ⟨1, [⟨⟨⟨List.replicate 32 7⟩, 1⟩, ⟨[1, 2]⟩, 4294967295⟩], 0⟩
    [9, 9, 9] (by decide)

/-- C7: any buffer of at least 9 bytes whose fifth byte (the CompactSize input
count) is 0x00 parses as a transaction with no inputs, consuming exactly
9 bytes: 4 for the version, 1 for the count, 4 for the lock time. -/
theorem claim_C7_zero_inputs (bs : List Nat) (h9 : 9 ≤ bs.length)
    (hcount : bs.getD 4 0 = 0) :
    BitcoinTransaction.from_bytes bs =
      .ok (⟨fromLE4 bs, [], fromLE4 (bs.drop 5)⟩, 9) := by
  rw [BitcoinTransaction.from_bytes]
  rw [if_neg (by omega)]
  have hne : bs.drop 4 ≠ [] := by
    intro hcontra
    have hlen := congrArg List.length hcontra
    simp only [List.length_drop, List.length_nil] at hlen
    omega
  have hcs : CompactSize.from_bytes (bs.drop 4) = .ok (⟨0⟩, 1) := by
    have h0 : (bs.drop 4).getD 0 0 = 0 := by
      rw [getD_drop]
      simpa using hcount
    rw [CompactSize.from_bytes, if_neg hne, h0]
    simp
  rw [hcs]
  dsimp only
  rw [show parseInputs (CompactSize.mk 0).value (bs.drop (4 + 1)) =
      .ok ([], 0) from rfl]
  dsimp only
  rw [if_neg (by omega)]

/-- C7 witness: a 10-byte buffer with count byte zero parses as a zero-input
transaction consuming 9 bytes, leaving the tenth byte unread. -/
theorem claim_C7_zero_inputs_witness :
    BitcoinTransaction.from_bytes [1, 0, 0, 0, 0, 2, 0, 0, 0, 99] =
      .ok (⟨fromLE4 [1, 0, 0, 0, 0, 2, 0, 0, 0, 99], [],
        fromLE4 (([1, 0, 0, 0, 0, 2, 0, 0, 0, 99] : List Nat).drop 5)⟩, 9) :=
  claim_C7_zero_inputs [1, 0, 0, 0, 0, 2, 0, 0, 0, 99] (by decide) (by decide)

/-- A result whose only possible error is InsufficientBytes is Ok or that
error. -/
theorem ok_or_insufficient {α : Type} (r : Except BitcoinError α)
    (h : ∀ e, r = .error e → e = .InsufficientBytes) :
    (∃ v, r = .ok v) ∨ r = .error .InsufficientBytes := by
  cases r with
  | ok v => exact Or.inl ⟨v, rfl⟩
  | error e => exact Or.inr (by rw [h e rfl])

/-- Error taxonomy of the functional models: no from_bytes result is ever
Err(InvalidFormat) — each is Ok or Err(InsufficientBytes) — and sub-parse
failures are propagated unchanged to the caller. -/
theorem from_bytes_error_taxonomy (bs : List Nat) (e : BitcoinError) :
    ((∃ v, CompactSize.from_bytes bs = .ok v) ∨
      CompactSize.from_bytes bs = .error .InsufficientBytes) ∧
    ((∃ v, OutPoint.from_bytes bs = .ok v) ∨
      OutPoint.from_bytes bs = .error .InsufficientBytes) ∧
    ((∃ v, Script.from_bytes bs = .ok v) ∨
      Script.from_bytes bs = .error .InsufficientBytes) ∧
    ((∃ v, TransactionInput.from_bytes bs = .ok v) ∨
      TransactionInput.from_bytes bs = .error .InsufficientBytes) ∧
    ((∃ v, BitcoinTransaction.from_bytes bs = .ok v) ∨
      BitcoinTransaction.from_bytes bs = .error .InsufficientBytes) ∧
    (CompactSize.from_bytes bs = .error e → Script.from_bytes bs = .error e) ∧
    (OutPoint.from_bytes bs = .error e →
      TransactionInput.from_bytes bs = .error e) := by
  refine ⟨ok_or_insufficient _ (cs_error_insufficient bs),
    ok_or_insufficient _ (op_error_insufficient bs),
    ok_or_insufficient _ (script_error_insufficient bs),
    ok_or_insufficient _ (ti_error_insufficient bs),
    ok_or_insufficient _ (tx_error_insufficient bs),
    fun h => ?_, fun h => ?_⟩
  · rw [Script.from_bytes, h]
  · rw [TransactionInput.from_bytes, h]

/-- Check of `from_bytes_error_taxonomy` on the empty buffer: the inner
parsers fail with InsufficientBytes, and Script and TransactionInput propagate
it unchanged. -/
theorem from_bytes_error_taxonomy_check :
    Script.from_bytes [] = .error .InsufficientBytes ∧
    TransactionInput.from_bytes [] = .error .InsufficientBytes :=
  ⟨(from_bytes_error_taxonomy [] .InsufficientBytes).2.2.2.2.2.1 rfl,
   (from_bytes_error_taxonomy [] .InsufficientBytes).2.2.2.2.2.2 rfl⟩

/-- C9: BitcoinTransaction::from_bytes terminates on every finite buffer,
with the loop consuming at least 41 bytes of the buffer per iteration: a
successful parse with n inputs consumed at least 9 + 41*n bytes, all within
the buffer, and a successful run of the input loop for n iterations consumed
at least 41*n bytes of its remainder — so the loop is bounded by the finite
buffer length no matter how large the decoded input count is. -/
theorem claim_C9_termination (bs : List Nat) :
    (∀ t c, BitcoinTransaction.from_bytes bs = .ok (t, c) →
      9 + 41 * t.inputs.length ≤ c ∧ c ≤ bs.length) ∧
    (∀ n l c, parseInputs n bs = .ok (l, c) →
      l.length = n ∧ 41 * n ≤ c ∧ c ≤ bs.length) :=
  ⟨fun t c h => tx_ok_bounds bs t c h,
   fun n l c h => parseInputs_ok_bounds n bs l c h⟩

/-- C9 witness: a concrete 50-byte one-input transaction and a concrete
41-byte single loop iteration realize the bounds. -/
theorem claim_C9_termination_witness :
    (9 + 41 * ([(⟨⟨⟨List.replicate 32 0⟩, 0⟩, ⟨[]⟩, 0⟩ : TransactionInput)].length) ≤ 50 ∧
      50 ≤ ((([1, 0, 0, 0, 1] : List Nat) ++ List.replicate 41 0 ++ [0, 0, 0, 0])).length) ∧
    ([(⟨⟨⟨List.replicate 32 0⟩, 0⟩, ⟨[]⟩, 0⟩ : TransactionInput)].length = 1 ∧
      41 * 1 ≤ 41 ∧ 41 ≤ (List.replicate 41 (0 : Nat)).length) :=
  ⟨(claim_C9_termination (([1, 0, 0, 0, 1] : List Nat) ++ List.replicate 41 0 ++ [0, 0, 0, 0])).1
      ⟨1, [⟨⟨⟨List.replicate 32 0⟩, 0⟩, ⟨[]⟩, 0⟩], 0⟩ 50 (by rfl),
   (claim_C9_termination (List.replicate 41 0)).2 1
      [⟨⟨⟨List.replicate 32 0⟩, 0⟩, ⟨[]⟩, 0⟩] 41 (by rfl)⟩

/-- C10: whenever any from_bytes returns Ok with a consumed count, that count
is at least the type's minimum encoded size (1 for CompactSize, 36 for
OutPoint, 1 for Script, 41 for TransactionInput, 9 for BitcoinTransaction)
and at most the length of the input buffer. -/
theorem claim_C10_consumed_bounds (bs : List Nat) :
    (∀ v c, CompactSize.from_bytes bs = .ok (v, c) → 1 ≤ c ∧ c ≤ bs.length) ∧
    (∀ v c, OutPoint.from_bytes bs = .ok (v, c) → 36 ≤ c ∧ c ≤ bs.length) ∧
    (∀ v c, Script.from_bytes bs = .ok (v, c) → 1 ≤ c ∧ c ≤ bs.length) ∧
    (∀ v c, TransactionInput.from_bytes bs = .ok (v, c) → 41 ≤ c ∧ c ≤ bs.length) ∧
    (∀ v c, BitcoinTransaction.from_bytes bs = .ok (v, c) → 9 ≤ c ∧ c ≤ bs.length) := by
  refine ⟨fun v c h => cs_ok_bounds bs v c h, fun v c h => ?_,
    fun v c h => script_ok_bounds bs v c h,
    fun v c h => ti_ok_bounds bs v c h, fun v c h => ?_⟩
  · have := op_ok_bounds bs v c h
    omega
  · have := tx_ok_bounds bs v c h
    omega

/-- C10 witness: concrete minimal successful parses for all five types. -/
theorem claim_C10_consumed_bounds_witness :
    (1 ≤ 1 ∧ 1 ≤ ([5] : List Nat).length) ∧
    (36 ≤ 36 ∧ 36 ≤ (List.replicate 36 (0 : Nat)).length) ∧
    (1 ≤ 1 ∧ 1 ≤ ([0] : List Nat).length) ∧
    (41 ≤ 41 ∧ 41 ≤ (List.replicate 41 (0 : Nat)).length) ∧
    (9 ≤ 9 ∧ 9 ≤ (List.replicate 9 (0 : Nat)).length) :=
  ⟨(claim_C10_consumed_bounds [5]).1 ⟨5⟩ 1 (by rfl),
   (claim_C10_consumed_bounds (List.replicate 36 0)).2.1
     ⟨⟨List.replicate 32 0⟩, 0⟩ 36 (by rfl),
   (claim_C10_consumed_bounds [0]).2.2.1 ⟨[]⟩ 1 (by rfl),
   (claim_C10_consumed_bounds (List.replicate 41 0)).2.2.2.1
     ⟨⟨⟨List.replicate 32 0⟩, 0⟩, ⟨[]⟩, 0⟩ 41 (by rfl),
   (claim_C10_consumed_bounds (List.replicate 9 0)).2.2.2.2
     ⟨0, [], 0⟩ 9 (by rfl)⟩

/-- Reading any index of a byte buffer (default 0) yields a byte value. -/
theorem getD_lt_256 (l : List Nat) (i : Nat) (h : ∀ b ∈ l, b < 256) :
    l.getD i 0 < 256 := by
  rcases hx : l[i]? with _ | x
  · simp [List.getD_eq_getElem?_getD, hx]
  · have hm : x ∈ l := List.getElem?_mem hx
    simp only [List.getD_eq_getElem?_getD, hx, Option.getD_some]
    exact h x hm

/-- On a byte buffer, a decoded CompactSize value fits in `u64`, and the sum
`consumed + value` can only reach `2 ^ 64` on the 9-byte 0xFF branch. -/
theorem cs_ok_value_lt (bs : List Nat) (hb : ∀ b ∈ bs, b < 256)
    (l : CompactSize) (c : Nat) (h : CompactSize.from_bytes bs = .ok (l, c)) :
    l.value < USIZE ∧ (USIZE ≤ c + l.value → c = 9) := by
  have h0 := getD_lt_256 bs 0 hb
  have h1 := getD_lt_256 bs 1 hb
  have h2 := getD_lt_256 bs 2 hb
  have h3 := getD_lt_256 bs 3 hb
  have h4 := getD_lt_256 bs 4 hb
  have h5 := getD_lt_256 bs 5 hb
  have h6 := getD_lt_256 bs 6 hb
  have h7 := getD_lt_256 bs 7 hb
  have h8 := getD_lt_256 bs 8 hb
  obtain ⟨lv⟩ := l
  rw [CompactSize.from_bytes] at h
  rw [USIZE]
  split_ifs at h
  all_goals simp_all
  all_goals omega

/-- Whenever the machine-accurate Script parser returns on a byte buffer, it
returns exactly what the overflow-free functional model computes — the two
transcriptions differ only on the panicking inputs. -/
theorem script_usize_agrees (bs : List Nat) (hb : ∀ b ∈ bs, b < 256)
    (r : Except BitcoinError (Script × Nat))
    (h : Script.from_bytes_usize bs = some r) : Script.from_bytes bs = r := by
  rw [Script.from_bytes_usize] at h
  rw [Script.from_bytes]
  cases hcs : CompactSize.from_bytes bs with
  | error e =>
    rw [hcs] at h
    simp only [Option.some.injEq] at h
    rw [← h]
  | ok p =>
    obtain ⟨l, c⟩ := p
    rw [hcs] at h
    dsimp only at h ⊢
    obtain ⟨hvlt, hc9⟩ := cs_ok_value_lt bs hb l c hcs
    have hclen := cs_ok_bounds bs l c hcs
    by_cases hov : c + l.value < USIZE
    · rw [Nat.mod_eq_of_lt hov] at h
      split_ifs at h ⊢ with hlen hle
      · exact Option.some.inj h
      · have h2 := Option.some.inj h
        rw [← h2, Nat.add_sub_cancel_left]
    · exfalso
      have hc : c = 9 := hc9 (by omega)
      have hle8 : (c + l.value) % USIZE ≤ 8 := by
        rw [USIZE] at hov hvlt ⊢
        omega
      split_ifs at h with h1 h2
      · exact absurd h1 (by omega)
      · exact absurd h2 (by omega)

/-- On a byte buffer the machine-accurate Script parser panics exactly when a
decoded length prefix makes `length_bytes + script_length` overflow `usize`:
declared lengths within 9 of `2 ^ 64`. -/
theorem script_usize_panics (bs : List Nat) (hb : ∀ b ∈ bs, b < 256) :
    Script.from_bytes_usize bs = none ↔
      ∃ l c, CompactSize.from_bytes bs = .ok (l, c) ∧ USIZE ≤ c + l.value := by
  rw [Script.from_bytes_usize]
  cases hcs : CompactSize.from_bytes bs with
  | error e => simp
  | ok p =>
    obtain ⟨l, c⟩ := p
    dsimp only
    obtain ⟨hvlt, hc9⟩ := cs_ok_value_lt bs hb l c hcs
    have hclen := cs_ok_bounds bs l c hcs
    constructor
    · intro h
      refine ⟨l, c, rfl, ?_⟩
      by_contra hov
      rw [Nat.mod_eq_of_lt (by omega)] at h
      split_ifs at h with hA hB
      exact absurd (Nat.le_add_right c l.value) hB
    · rintro ⟨l', c', hlc, hov⟩
      obtain ⟨hl, hc'⟩ : l = l' ∧ c = c' := by
        simpa using hlc
      subst hl
      subst hc'
      have hc : c = 9 := hc9 hov
      have hle8 : (c + l.value) % USIZE ≤ 8 := by
        rw [USIZE] at hov hvlt ⊢
        omega
      split_ifs with h1 h2
      · exact absurd h1 (by omega)
      · exact absurd h2 (by omega)
      · rfl

/-- C4: refuted on the code — the 9-byte buffer `[0xFF, 0xF7, 0xFF x 7]`
declares script length `2 ^ 64 - 9`, so `length_bytes + script_length`
overflows `usize` and `Script::from_bytes` panics (modeled as `none`) instead
of returning; the specified outcome for this buffer, and the value of the
overflow-free availability check, is Err(InsufficientBytes). -/
theorem claim_C4_overflow_panic :
    Script.from_bytes_usize [255, 247, 255, 255, 255, 255, 255, 255, 255] =
      none ∧
    Script.from_bytes [255, 247, 255, 255, 255, 255, 255, 255, 255] =
      .error .InsufficientBytes :=
  ⟨rfl, rfl⟩

/-- C8: refuted on the code — on the 9-byte buffer `[0xFF, 0xF8, 0xFF x 7]`
(declared script length `2 ^ 64 - 8`) the modeled `Script::from_bytes` call
panics, so it returns neither Ok nor Err(InsufficientBytes); the overflow-free
reading of the same buffer is Err(InsufficientBytes). -/
theorem claim_C8_overflow_escape :
    Script.from_bytes_usize [255, 248, 255, 255, 255, 255, 255, 255, 255] =
      none ∧
    (∀ v, Script.from_bytes_usize [255, 248, 255, 255, 255, 255, 255, 255, 255] ≠
      some (.ok v)) ∧
    Script.from_bytes_usize [255, 248, 255, 255, 255, 255, 255, 255, 255] ≠
      some (.error .InsufficientBytes) ∧
    Script.from_bytes [255, 248, 255, 255, 255, 255, 255, 255, 255] =
      .error .InsufficientBytes := by
  refine ⟨rfl, fun v h => ?_, fun h => ?_, rfl⟩
  · rw [show Script.from_bytes_usize [255, 248, 255, 255, 255, 255, 255, 255, 255] =
        none from rfl] at h
    exact Option.noConfusion h
  · rw [show Script.from_bytes_usize [255, 248, 255, 255, 255, 255, 255, 255, 255] =
        none from rfl] at h
    exact Option.noConfusion h

end BtcCodec
